import Mathlib

/-!
Verification development for the workout-loop-replay repository.

The delay-buffer engine lives in `src/components/VideoRecorder.tsx` (second,
current revision): `captureFrame` appends a frame to the `frameBuffer` state
and evicts from the front down to `bufferSeconds * 10` frames, and
`playDelayedFrames` reads the frame `delaySeconds * 10` positions from the end
into `currentDelayedFrame`, leaving the buffer untouched.

The format negotiator lives in the third revision of `src/lib/videoUtils.ts`
(`getResolvedFormat`, `getSupportedCodecs`): a ranked codec/container candidate
table, an auto-resolution scan, an explicit-preference scan, and a last-resort
fallback list.  The runtime support test (`MediaRecorder.isTypeSupported`) is
an external capability and is modelled as an abstract `String → Bool`
parameter.
-/

/-- A captured frame: the code stores JPEG data-URL strings in the buffer. -/
abbrev Frame := String

/-- Buffer update performed by `captureFrame` (VideoRecorder.tsx lines
314-322): append the frame, then if the length exceeds
`maxFrames = bufferSeconds * 10` keep only the last `maxFrames` entries
(`newBuffer.slice(newBuffer.length - maxFrames)`). -/
def captureFrame (bufferSeconds : Nat) (buf : List Frame) (frameData : Frame) : List Frame :=
  let newBuffer := buf ++ [frameData]
  let maxFrames := bufferSeconds * 10
  if newBuffer.length > maxFrames then
    newBuffer.drop (newBuffer.length - maxFrames)
  else
    newBuffer

/-- Display update performed by `playDelayedFrames` (VideoRecorder.tsx lines
326-336): with `framesToDelay = delaySeconds * 10`, when
`prevBuffer.length >= framesToDelay` it sets `currentDelayedFrame` to
`prevBuffer[prevBuffer.length - framesToDelay]` (an out-of-range JavaScript
index yields `undefined`, modelled by `List.get?` returning `none`);
otherwise `currentDelayedFrame` keeps its previous value.  The buffer itself
is returned unchanged. -/
def playDelayedFrames (delaySeconds : Nat) (buf : List Frame) (cur : Option Frame) :
    Option Frame :=
  let framesToDelay := delaySeconds * 10
  if buf.length ≥ framesToDelay then buf.get? (buf.length - framesToDelay) else cur

/-- The query result starting from an empty display state (`currentDelayedFrame`
initialised to `null`): `none` is the "not yet available" outcome. -/
def query (delaySeconds : Nat) (buf : List Frame) : Option Frame :=
  playDelayedFrames delaySeconds buf none

/-- Ingest a whole sequence of frames at a fixed `bufferSeconds`, starting from
the empty buffer. -/
def ingestAll (bufferSeconds : Nat) (frames : List Frame) : List Frame :=
  frames.foldl (captureFrame bufferSeconds) []

/-- Run a trace of ingest calls where every call carries the `bufferSeconds`
configured at that moment (the sliders can be moved between any two capture
ticks; eviction always uses the latest configured value). -/
def runTrace (trace : List (Nat × Frame)) (buf : List Frame) : List Frame :=
  trace.foldl (fun b p => captureFrame p.1 b p.2) buf

/-- The mutable state of the recorder component that the buffer claims range
over: the two slider values and the two React state cells holding the buffer
and the displayed delayed frame. -/
structure RState where
  delaySeconds : Nat
  bufferSeconds : Nat
  frameBuffer : List Frame
  currentDelayedFrame : Option Frame
deriving DecidableEq

/-- The events that touch this state in the component: a capture tick, a
playback tick, moving either slider, and `stopStream` clearing the session. -/
inductive Step where
  | ingestF (f : Frame)
  | setBuffer (b : Nat)
  | setDelay (d : Nat)
  | queryStep
  | reset
deriving DecidableEq

/-- One transition of the recorder state, following the component code:
`captureFrame` rewrites only `frameBuffer`; `playDelayedFrames` rewrites only
`currentDelayedFrame`; the slider handlers rewrite only the configuration;
`stopStream` clears buffer and display. -/
def stepFn (s : RState) : Step → RState
  | .ingestF f => { s with frameBuffer := captureFrame s.bufferSeconds s.frameBuffer f }
  | .setBuffer b => { s with bufferSeconds := b }
  | .setDelay d => { s with delaySeconds := d }
  | .queryStep =>
      { s with currentDelayedFrame :=
          playDelayedFrames s.delaySeconds s.frameBuffer s.currentDelayedFrame }
  | .reset => { s with frameBuffer := [], currentDelayedFrame := none }

/-- Concrete frame sequences used to instantiate the buffer theorems. -/
def mkFrames (n : Nat) : List Frame :=
  (List.range n).map (fun i => "frame" ++ toString i)

/-- Entry of the candidate table: an encoder MIME signature and its container
(videoUtils.ts `codecMap` entries `\x7b type, container \x7d`). -/
structure Variant where
  type : String
  container : String
deriving DecidableEq

/-- Entry of the last-resort fallback list in `getResolvedFormat`
(`\x7b type, codec, container \x7d`). -/
structure FallbackType where
  type : String
  codec : String
  container : String
deriving DecidableEq

/-- The resolved-format triple returned by `getResolvedFormat`. -/
structure ResolvedFormat where
  codec : String
  container : String
  displayName : String
deriving DecidableEq

/-- Codec priority order AV1 > HEVC > H.264 > VP9 (videoUtils.ts). -/
def codecPriority : List String := ["av1", "hevc", "h264", "vp9"]

/-- Container priority order MKV > MP4 > WebM (videoUtils.ts). -/
def containerPriority : List String := ["mkv", "mp4", "webm"]

/-- Candidate variants for AV1 from `codecMap` in `getResolvedFormat`. -/
def av1Variants : List Variant :=
  [⟨"video/x-matroska; codecs=\"av01.0.05M.08\"", "mkv"⟩,
   ⟨"video/mp4; codecs=\"av01.0.05M.08\"", "mp4"⟩,
   ⟨"video/webm; codecs=\"av01.0.05M.08\"", "webm"⟩,
   ⟨"video/webm; codecs=\"av01.0.08M.08\"", "webm"⟩,
   ⟨"video/webm; codecs=\"av01\"", "webm"⟩,
   ⟨"video/mp4; codecs=\"av01\"", "mp4"⟩]

/-- Candidate variants for HEVC from `codecMap`. -/
def hevcVariants : List Variant :=
  [⟨"video/x-matroska; codecs=\"hev1.1.6.L93.B0\"", "mkv"⟩,
   ⟨"video/mp4; codecs=\"hev1.1.6.L93.B0\"", "mp4"⟩,
   ⟨"video/mp4; codecs=\"hvc1.1.6.L93.B0\"", "mp4"⟩]

/-- Candidate variants for H.264 from `codecMap`. -/
def h264Variants : List Variant :=
  [⟨"video/x-matroska; codecs=\"avc1.42E01E\"", "mkv"⟩,
   ⟨"video/mp4; codecs=\"avc1.42E01E\"", "mp4"⟩,
   ⟨"video/webm; codecs=\"h264\"", "webm"⟩]

/-- Candidate variants for VP9 from `codecMap`. -/
def vp9Variants : List Variant :=
  [⟨"video/x-matroska; codecs=\"vp9\"", "mkv"⟩,
   ⟨"video/mp4; codecs=\"vp09.00.10.08\"", "mp4"⟩,
   ⟨"video/webm; codecs=\"vp9\"", "webm"⟩]

/-- The `codecMap` lookup `codecMap[codec]`: `none` models the JavaScript
`undefined` for an unknown codec key. -/
def codecMapGet (codec : String) : Option (List Variant) :=
  if codec == "av1" then some av1Variants
  else if codec == "hevc" then some hevcVariants
  else if codec == "h264" then some h264Variants
  else if codec == "vp9" then some vp9Variants
  else none

/-- Total version of the `codecMap` lookup used where the key is drawn from
`codecPriority` (always present). -/
def codecMapList (codec : String) : List Variant :=
  (codecMapGet codec).getD []

/-- Auto branch, inner container-priority loop for one codec: for each
container name in priority order, look up the first variant with that
container (`codecVariants.find(v => v.container === containerName)`) and test
only it; the first supported test selects that container name. -/
def findPriorityVariant (support : String → Bool) (variants : List Variant) :
    List String → Option String
  | [] => none
  | c :: cs =>
    match variants.find? (fun v => v.container == c) with
    | some v =>
        if support v.type then some c else findPriorityVariant support variants cs
    | none => findPriorityVariant support variants cs

/-- Auto branch, second inner loop: any supported variant of the codec, in the
candidate list's listed order. -/
def findAnySupported (support : String → Bool) (variants : List Variant) : Option Variant :=
  variants.find? (fun v => support v.type)

/-- The `codec === 'auto' || container === 'auto'` branch of
`getResolvedFormat`: iterate codecs in priority order; phase 1 is the
container-priority loop, phase 2 any supported variant; the mid-loop
`if (selectedCodec !== 'auto') break` is reproduced exactly (it fires with the
initial selection when the requested codec was explicit). -/
def autoScan (support : String → Bool) : List String → String × String → String × String
  | [], sel => sel
  | codecName :: rest, sel =>
    match findPriorityVariant support (codecMapList codecName) containerPriority with
    | some containerName => (codecName, containerName)
    | none =>
      if sel.1 == "auto" then
        match findAnySupported support (codecMapList codecName) with
        | some v => (codecName, v.container)
        | none => autoScan support rest sel
      else sel

/-- Explicit branch, step 2: scan the codecs in priority order, skipping the
requested codec, for a supported variant matching the requested container;
for each codec only the first variant with that container is tested
(`otherCodecVariants?.find(v => v.container === container)`). -/
def explicitScanOthers (support : String → Bool) (codec container : String) :
    List String → Option String
  | [] => none
  | codecName :: rest =>
    if codecName == codec then explicitScanOthers support codec container rest
    else
      match (codecMapList codecName).find? (fun v => v.container == container) with
      | some v =>
          if support v.type then some codecName
          else explicitScanOthers support codec container rest
      | none => explicitScanOthers support codec container rest

/-- Explicit branch after the exact match failed: step 2 (container kept,
other codec) when the container is explicit, then step 3 (any supported
variant of the requested codec), else the selection is left unchanged. -/
def explicitFallback (support : String → Bool) (codec container : String)
    (variants : List Variant) : String × String :=
  let step2 : Option String :=
    if container == "auto" then none
    else explicitScanOthers support codec container codecPriority
  match step2 with
  | some codecName => (codecName, container)
  | none =>
    match variants.find? (fun v => support v.type) with
    | some v => (codec, v.container)
    | none => (codec, container)

/-- Explicit branch of `getResolvedFormat`: try the exact
`(codec, container)` variant first, else fall back; an unknown codec key
leaves the selection unchanged. -/
def explicitResolve (support : String → Bool) (codec container : String) : String × String :=
  match codecMapGet codec with
  | none => (codec, container)
  | some variants =>
    match variants.find? (fun v => v.container == container) with
    | some v =>
        if support v.type then (codec, container)
        else explicitFallback support codec container variants
    | none => explicitFallback support codec container variants

/-- The last-resort fallback list of `getResolvedFormat` (HEVC, H.264, VP9
table entries again, then VP8 webm, then untagged webm). -/
def fallbackTypes : List FallbackType :=
  [⟨"video/x-matroska; codecs=\"hev1.1.6.L93.B0\"", "hevc", "mkv"⟩,
   ⟨"video/mp4; codecs=\"hev1.1.6.L93.B0\"", "hevc", "mp4"⟩,
   ⟨"video/mp4; codecs=\"hvc1.1.6.L93.B0\"", "hevc", "mp4"⟩,
   ⟨"video/x-matroska; codecs=\"avc1.42E01E\"", "h264", "mkv"⟩,
   ⟨"video/mp4; codecs=\"avc1.42E01E\"", "h264", "mp4"⟩,
   ⟨"video/webm; codecs=\"h264\"", "h264", "webm"⟩,
   ⟨"video/x-matroska; codecs=\"vp9\"", "vp9", "mkv"⟩,
   ⟨"video/mp4; codecs=\"vp09.00.10.08\"", "vp9", "mp4"⟩,
   ⟨"video/webm; codecs=\"vp9\"", "vp9", "webm"⟩,
   ⟨"video/webm; codecs=\"vp8\"", "vp8", "webm"⟩,
   ⟨"video/webm", "unknown", "webm"⟩]

/-- Final fallback of `getResolvedFormat`: only when the selected codec is
still `'auto'`, scan `fallbackTypes` for the first supported entry. -/
def finalFallback (support : String → Bool) (sel : String × String) : String × String :=
  if sel.1 == "auto" then
    match fallbackTypes.find? (fun fb => support fb.type) with
    | some fb => (fb.codec, fb.container)
    | none => sel
  else sel

/-- ASCII uppercase used for display labels, modelling JavaScript
`toUpperCase()` on the ASCII identifiers involved (structural per-character
map). -/
def toUpperChars (s : String) : String := String.mk (s.data.map Char.toUpper)

/-- Canonical display name of a codec identifier (videoUtils.ts lines
399-404). -/
def codecDisplayName (c : String) : String :=
  if c == "av1" then "AV1"
  else if c == "hevc" then "HEVC"
  else if c == "h264" then "H.264"
  else if c == "vp9" then "VP9"
  else if c == "vp8" then "VP8"
  else toUpperChars c

/-- The format negotiator `getResolvedFormat(codec, container)` of
videoUtils.ts (third revision, the one the claims cite), with the runtime
support test `MediaRecorder.isTypeSupported` abstracted as `support`.
Returns the selected codec, container and the display label
`"<CODEC> (<CONTAINER>)"`. -/
def getResolvedFormat (support : String → Bool) (codec container : String) : ResolvedFormat :=
  let sel :=
    if codec == "auto" || container == "auto" then
      autoScan support codecPriority (codec, container)
    else
      explicitResolve support codec container
  let sel2 := finalFallback support sel
  ⟨sel2.1, sel2.2, codecDisplayName sel2.1 ++ " (" ++ toUpperChars sel2.2 ++ ")"⟩

/-- Entry of the `getSupportedCodecs` result list. -/
structure CodecInfo where
  value : String
  label : String
  supported : Bool
deriving DecidableEq

/-- AV1 signatures tested by `getSupportedCodecs` (videoUtils.ts lines
421-428). -/
def av1TestTypes : List String :=
  ["video/webm; codecs=\"av01.0.05M.08\"",
   "video/mp4; codecs=\"av01.0.05M.08\"",
   "video/webm; codecs=\"av01.0.08M.08\"",
   "video/mp4; codecs=\"av01.0.08M.08\"",
   "video/webm; codecs=\"av01\"",
   "video/mp4; codecs=\"av01\""]

/-- The codec-support listing `getSupportedCodecs()` of videoUtils.ts with
the support test abstracted: for each known codec it reports whether any of a
fixed per-codec list of signatures is supported. -/
def getSupportedCodecs (support : String → Bool) : List CodecInfo :=
  [⟨"av1", "AV1", av1TestTypes.any support⟩,
   ⟨"hevc", "HEVC/H.265",
      support "video/mp4; codecs=\"hev1.1.6.L93.B0\""
        || support "video/mp4; codecs=\"hvc1.1.6.L93.B0\""⟩,
   ⟨"h264", "H.264",
      support "video/mp4; codecs=\"avc1.42E01E\""
        || support "video/webm; codecs=\"h264\""⟩,
   ⟨"vp9", "VP9",
      support "video/webm; codecs=\"vp9\""
        || support "video/mp4; codecs=\"vp09.00.10.08\""⟩]

/-- The per-codec signature lists tested by `getSupportedCodecs`, written out
as data so the support flags can be characterised: exactly the signatures the
code passes to the support test (no mkv signature is among them, and for AV1
the extra `video/mp4; codecs="av01.0.08M.08"` is tested although it is not in
the candidate table). -/
def testedSigs (codec : String) : List String :=
  if codec == "av1" then av1TestTypes
  else if codec == "hevc" then
    ["video/mp4; codecs=\"hev1.1.6.L93.B0\"", "video/mp4; codecs=\"hvc1.1.6.L93.B0\""]
  else if codec == "h264" then
    ["video/mp4; codecs=\"avc1.42E01E\"", "video/webm; codecs=\"h264\""]
  else if codec == "vp9" then
    ["video/webm; codecs=\"vp9\"", "video/mp4; codecs=\"vp09.00.10.08\""]
  else []

/-- Support test under which nothing at all is reported supported. -/
def supportNone : String → Bool := fun _ => false

/-- Support test for the C4 scenario: only the MP4 variant of H.264 and the
MKV variant of VP9 are supported. -/
def supportC4 : String → Bool := fun s =>
  s == "video/mp4; codecs=\"avc1.42E01E\"" || s == "video/x-matroska; codecs=\"vp9\""

/-- Support test for the C4 counterexample: only AV1's third webm signature
`video/webm; codecs="av01"` is supported. -/
def supportC4Cex : String → Bool := fun s => s == "video/webm; codecs=\"av01\""

/-- Support test for the C6 scenario: only `video/webm; codecs="vp9"` is
supported. -/
def supportC6 : String → Bool := fun s => s == "video/webm; codecs=\"vp9\""

/-- Support test for the C6 phase-2 witness: only AV1's third webm signature
is supported. -/
def supportC6Any : String → Bool := fun s => s == "video/webm; codecs=\"av01\""

/-- Support test for the C6 counterexample: AV1's third webm signature and
AV1's second mp4 signature are supported, nothing else. -/
def supportC6Cex : String → Bool := fun s =>
  s == "video/webm; codecs=\"av01\"" || s == "video/mp4; codecs=\"av01\""

/-- Support test for the C8 counterexample: only the MKV variant of VP9 is
supported. -/
def supportC8Cex : String → Bool := fun s => s == "video/x-matroska; codecs=\"vp9\""

/-- Support test for the C8 witness: only `video/webm; codecs="vp9"` is
supported. -/
def supportC8 : String → Bool := fun s => s == "video/webm; codecs=\"vp9\""

theorem captureFrame_eq_drop (b : Nat) (buf : List Frame) (f : Frame) :
    captureFrame b buf f = (buf ++ [f]).drop (buf.length + 1 - b * 10) := by
  unfold captureFrame
  by_cases h : (buf ++ [f]).length > b * 10
  · simp only [List.length_append, List.length_cons, List.length_nil] at h ⊢
    rw [if_pos h]
  · simp only [List.length_append, List.length_cons, List.length_nil] at h ⊢
    rw [if_neg h]
    have : buf.length + 1 - b * 10 = 0 := by omega
    rw [this, List.drop_zero]

theorem captureFrame_length_le (b : Nat) (buf : List Frame) (f : Frame) :
    (captureFrame b buf f).length ≤ b * 10 ∨ (captureFrame b buf f).length = buf.length + 1 := by
  rw [captureFrame_eq_drop]
  by_cases h : buf.length + 1 ≤ b * 10
  · right
    rw [List.length_drop]
    simp only [List.length_append, List.length_cons, List.length_nil]
    omega
  · left
    rw [List.length_drop]
    simp only [List.length_append, List.length_cons, List.length_nil]
    omega

theorem foldl_captureFrame_eq_drop (b : Nat) :
    ∀ (fs : List Frame) (buf : List Frame), buf.length ≤ b * 10 →
      fs.foldl (captureFrame b) buf = (buf ++ fs).drop (buf.length + fs.length - b * 10) := by
  intro fs
  induction fs with
  | nil =>
      intro buf h
      simp only [List.foldl_nil, List.length_nil, Nat.add_zero, List.append_nil]
      have : buf.length - b * 10 = 0 := by omega
      rw [this, List.drop_zero]
  | cons f fs ih =>
      intro buf h
      rw [List.foldl_cons]
      have hlen : (captureFrame b buf f).length ≤ b * 10 := by
        rw [captureFrame_eq_drop, List.length_drop]
        simp only [List.length_append, List.length_cons, List.length_nil]
        omega
      rw [ih (captureFrame b buf f) hlen]
      rw [captureFrame_eq_drop]
      have hle : buf.length + 1 - b * 10 ≤ (buf ++ [f]).length := by
        simp only [List.length_append, List.length_cons, List.length_nil]
        omega
      rw [← List.drop_append_of_le_length hle]
      rw [List.drop_drop]
      have harith : (buf.length + 1 - b * 10)
          + ((List.drop (buf.length + 1 - b * 10) (buf ++ [f])).length + fs.length - b * 10)
          = buf.length + (f :: fs).length - b * 10 := by
        rw [List.length_drop]
        simp only [List.length_append, List.length_cons, List.length_nil]
        omega
      rw [harith]
      simp [List.append_assoc]

theorem ingestAll_eq_drop (b : Nat) (fs : List Frame) :
    ingestAll b fs = fs.drop (fs.length - b * 10) := by
  unfold ingestAll
  rw [foldl_captureFrame_eq_drop b fs [] (by simp)]
  simp

theorem ingestAll_length (b : Nat) (fs : List Frame) :
    (ingestAll b fs).length = fs.length - (fs.length - b * 10) := by
  rw [ingestAll_eq_drop, List.length_drop]

/-- Claim C1: with cadence 10 Hz and `bufferSeconds ≥ delaySeconds ≥ 1`, after
at least `delaySteps = delaySeconds * 10` ingests `query()` returns exactly the
frame ingested `delaySteps` ingestions ago (the frame at position
`length - delaySteps` of the retained sequence, which is frame number
`n - delaySteps` of the full ingestion sequence, 0-indexed), and before that it
returns "not yet available" (`none`). -/
theorem c1_query_exact_delay (dSec bSec : Nat) (frames : List Frame)
    (h1 : 1 ≤ dSec) (h2 : dSec ≤ bSec) :
    (frames.length < dSec * 10 → query dSec (ingestAll bSec frames) = none) ∧
    (dSec * 10 ≤ frames.length →
      query dSec (ingestAll bSec frames) = frames.get? (frames.length - dSec * 10)) := by
  have hm : dSec * 10 ≤ bSec * 10 := Nat.mul_le_mul_right 10 h2
  constructor
  · intro hlt
    have hlen : (ingestAll bSec frames).length < dSec * 10 := by
      rw [ingestAll_length]; omega
    unfold query playDelayedFrames
    rw [if_neg (by omega)]
  · intro hge
    rw [ingestAll_eq_drop]
    have hlen : (frames.drop (frames.length - bSec * 10)).length
        = frames.length - (frames.length - bSec * 10) := List.length_drop _ _
    unfold query playDelayedFrames
    rw [if_pos (by rw [hlen]; omega)]
    rw [List.get?_eq_getElem?, List.get?_eq_getElem?, List.getElem?_drop, hlen]
    congr 1
    omega

/-- Witness for C1 at the claim's own scenario: `delaySeconds = 3`,
`bufferSeconds = 3`, cadence 10 Hz, so `delaySteps = 30`; after 29 ingests the
query yields "not yet available", after the 30th it yields the first frame
ever ingested. -/
theorem c1_query_exact_delay_witness :
    query 3 (ingestAll 3 (mkFrames 29)) = none ∧
    query 3 (ingestAll 3 (mkFrames 30)) = some "frame0" := by
  constructor
  · exact (c1_query_exact_delay 3 3 (mkFrames 29) (by decide) (by decide)).1
      (by simp [mkFrames])
  · have h := (c1_query_exact_delay 3 3 (mkFrames 30) (by decide) (by decide)).2
      (by simp [mkFrames])
    rw [h]
    decide

/-- Claim C2 counterexample: the claim states that the capacity used for
eviction is `max(bufferSeconds * 10, delaySteps)`, which for the reachable
slider configuration `delaySeconds = 30`, `bufferSeconds = 5` would be
`max 50 300 = 300`, guaranteeing the delayed frame eventually becomes
available.  In the code (`captureFrame`, VideoRecorder.tsx line 317) the bound
is `bufferSeconds * 10` alone: after 300 ingests only 50 frames are retained,
not 300, and the query still answers "not yet available". -/
theorem c2_capacity_counterexample :
    (ingestAll 5 (mkFrames 300)).length = 50 ∧
    (ingestAll 5 (mkFrames 300)).length ≠ max (5 * 10) (30 * 10) ∧
    query 30 (ingestAll 5 (mkFrames 300)) = none := by
  have hlen : (ingestAll 5 (mkFrames 300)).length = 50 := by
    rw [ingestAll_length]
    simp [mkFrames]
  refine ⟨hlen, by rw [hlen]; decide, ?_⟩
  unfold query playDelayedFrames
  rw [if_neg (by rw [hlen]; decide)]

/-- Claim C2 (amended): the eviction bound used by `captureFrame` is
`bufferSeconds * 10` with no `delaySteps` floor: once at least
`bufferSeconds * 10` frames have been ingested exactly `bufferSeconds * 10`
are retained, and whenever `bufferSeconds < delaySeconds` (reachable via the
sliders: delay 1-30 s, buffer 5-60 s) the retained length stays below
`delaySteps` forever, so the delayed frame never becomes available. -/
theorem c2_capacity_no_floor (dSec bSec : Nat) (frames : List Frame) :
    (bSec * 10 ≤ frames.length → (ingestAll bSec frames).length = bSec * 10) ∧
    (bSec < dSec → query dSec (ingestAll bSec frames) = none) := by
  constructor
  · intro h
    rw [ingestAll_length]
    omega
  · intro h
    have hlen : (ingestAll bSec frames).length < dSec * 10 := by
      rw [ingestAll_length]; omega
    unfold query playDelayedFrames
    rw [if_neg (by omega)]

/-- Witness for the amended C2: delay 30 s with buffer 5 s retains exactly 50
frames out of 60 and never resolves a delayed frame. -/
theorem c2_capacity_no_floor_witness :
    (ingestAll 5 (mkFrames 60)).length = 5 * 10 ∧
    query 30 (ingestAll 5 (mkFrames 60)) = none :=
  ⟨(c2_capacity_no_floor 30 5 (mkFrames 60)).1 (by simp [mkFrames]),
   (c2_capacity_no_floor 30 5 (mkFrames 60)).2 (by decide)⟩

/-- Claim C5: for every sequence of ingest calls, under any interleaved
reconfigurations (each trace entry carries the `bufferSeconds` configured at
that tick), immediately after each ingest the buffer length is at most the
capacity `bufferSeconds * 10` configured at that ingest; and when an append
would exceed the capacity, eviction drops exactly the oldest frames from the
front until the length equals the capacity (the result is the suffix of
`buf ++ [f]` of length exactly `bufferSeconds * 10`). -/
theorem c5_capacity_invariant :
    (∀ (pre : List (Nat × Frame)) (b : Nat) (f : Frame) (buf0 : List Frame),
      (runTrace (pre ++ [(b, f)]) buf0).length ≤ b * 10) ∧
    (∀ (b : Nat) (buf : List Frame) (f : Frame), b * 10 < buf.length + 1 →
      captureFrame b buf f = (buf ++ [f]).drop (buf.length + 1 - b * 10) ∧
      (captureFrame b buf f).length = b * 10 ∧
      (captureFrame b buf f).IsSuffix (buf ++ [f])) := by
  constructor
  · intro pre b f buf0
    unfold runTrace
    rw [List.foldl_append]
    simp only [List.foldl_cons, List.foldl_nil]
    rw [captureFrame_eq_drop, List.length_drop]
    simp only [List.length_append, List.length_cons, List.length_nil]
    omega
  · intro b buf f h
    refine ⟨captureFrame_eq_drop b buf f, ?_, ?_⟩
    · rw [captureFrame_eq_drop, List.length_drop]
      simp only [List.length_append, List.length_cons, List.length_nil]
      omega
    · rw [captureFrame_eq_drop]
      exact List.drop_suffix _ _

/-- Witness for C5: a concrete trace ending in a capacity-1 ingest, and a
concrete overfull append at capacity 10. -/
theorem c5_capacity_invariant_witness :
    (runTrace ([(2, "a"), (1, "b")] ++ [(1, "c")]) []).length ≤ 1 * 10 ∧
    (captureFrame 1 (mkFrames 10) "x"
        = (mkFrames 10 ++ ["x"]).drop ((mkFrames 10).length + 1 - 1 * 10) ∧
      (captureFrame 1 (mkFrames 10) "x").length = 1 * 10 ∧
      (captureFrame 1 (mkFrames 10) "x").IsSuffix (mkFrames 10 ++ ["x"])) :=
  ⟨c5_capacity_invariant.1 [(2, "a"), (1, "b")] 1 "c" [],
   c5_capacity_invariant.2 1 (mkFrames 10) "x" (by decide)⟩

/-- Claim C7 counterexample: with `delaySteps = 0` (i.e. `delaySeconds = 0`)
and the non-empty buffer `["frameA"]`, the claim says `query()` returns the
most recently ingested frame `"frameA"`.  In the code the availability check
`length >= 0` passes, but the accessed JavaScript index
`prevBuffer[length - 0]` is out of range, so the query resolves no frame and
even overwrites a previously displayed frame with the absent value. -/
theorem c7_zero_delay_counterexample :
    query 0 ["frameA"] = none ∧
    playDelayedFrames 0 ["frameA"] (some "frameA") = none ∧
    (none : Option Frame) ≠ some "frameA" := by
  refine ⟨by decide, by decide, by decide⟩

/-- Claim C7 (amended): when `delaySteps = 0`, `playDelayedFrames` always sets
the displayed frame to the absent value (the out-of-range access
`prevBuffer[length]` yields `undefined`), for every buffer content and every
previous display state; it never returns the most recently ingested frame. -/
theorem c7_zero_delay_amended (buf : List Frame) (cur : Option Frame) :
    playDelayedFrames 0 buf cur = none := by
  unfold playDelayedFrames
  rw [if_pos (by omega)]
  rw [List.get?_eq_getElem?]
  exact List.getElem?_eq_none (by omega)

/-- Claim C9: moving the buffer-size slider (in either direction) never by
itself discards a retained frame — the buffer is only rewritten by ingest
steps; every ingest produces a suffix of `buffer ++ [frame]`, so eviction
(including the eviction that follows shrinking `bufferSeconds`) removes frames
only from the front, never from the middle; and after growing the capacity
beyond the current content the next ingest discards nothing at all. -/
theorem c9_reconfigure_no_middle_eviction :
    (∀ (s : RState) (b : Nat), (stepFn s (Step.setBuffer b)).frameBuffer = s.frameBuffer) ∧
    (∀ (s : RState) (f : Frame),
      ((stepFn s (Step.ingestF f)).frameBuffer).IsSuffix (s.frameBuffer ++ [f])) ∧
    (∀ (s : RState) (b : Nat) (f : Frame), s.frameBuffer.length + 1 ≤ b * 10 →
      (stepFn (stepFn s (Step.setBuffer b)) (Step.ingestF f)).frameBuffer
        = s.frameBuffer ++ [f]) := by
  refine ⟨fun s b => rfl, fun s f => ?_, fun s b f h => ?_⟩
  · simp only [stepFn]
    rw [captureFrame_eq_drop]
    exact List.drop_suffix _ _
  · simp only [stepFn]
    rw [captureFrame_eq_drop]
    have hz : s.frameBuffer.length + 1 - b * 10 = 0 := by omega
    rw [hz, List.drop_zero]

/-- Witness for C9 at a concrete state: slider moves leave the buffer `["x"]`
unchanged, a capacity-1 ingest still yields a suffix, and an ingest after
growing the capacity appends without discarding. -/
theorem c9_reconfigure_no_middle_eviction_witness :
    (stepFn ⟨3, 5, ["x"], none⟩ (Step.setBuffer 6)).frameBuffer = ["x"] ∧
    ((stepFn ⟨3, 5, ["x"], none⟩ (Step.ingestF "y")).frameBuffer).IsSuffix (["x"] ++ ["y"]) ∧
    (stepFn (stepFn ⟨3, 5, ["x"], none⟩ (Step.setBuffer 1)) (Step.ingestF "y")).frameBuffer
      = ["x"] ++ ["y"] :=
  ⟨c9_reconfigure_no_middle_eviction.1 ⟨3, 5, ["x"], none⟩ 6,
   c9_reconfigure_no_middle_eviction.2.1 ⟨3, 5, ["x"], none⟩ "y",
   c9_reconfigure_no_middle_eviction.2.2 ⟨3, 5, ["x"], none⟩ 1 "y" (by decide)⟩

/-- Claim C10: playback never mutates the buffer; once a delayed frame has
been resolved (`currentDelayedFrame = some f`), a later playback tick never
reverts the display to "not yet available" as long as the configured delay is
at least 1 second (the slider range is 1-30 s); and in particular when the
delay is reconfigured so that the buffer length falls below the new
`delaySteps`, the previously resolved frame remains displayed unchanged. -/
theorem c10_no_revert_after_resolve :
    (∀ s : RState, (stepFn s Step.queryStep).frameBuffer = s.frameBuffer) ∧
    (∀ (s : RState) (f : Frame), 1 ≤ s.delaySeconds → s.currentDelayedFrame = some f →
      ∃ g, (stepFn s Step.queryStep).currentDelayedFrame = some g) ∧
    (∀ s : RState, s.frameBuffer.length < s.delaySeconds * 10 →
      (stepFn s Step.queryStep).currentDelayedFrame = s.currentDelayedFrame) := by
  refine ⟨fun s => rfl, fun s f hd hc => ?_, fun s h => ?_⟩
  · simp only [stepFn]
    unfold playDelayedFrames
    by_cases hlen : s.frameBuffer.length ≥ s.delaySeconds * 10
    · rw [if_pos hlen]
      have hidx : s.frameBuffer.length - s.delaySeconds * 10 < s.frameBuffer.length := by
        omega
      exact ⟨_, List.get?_eq_get hidx⟩
    · rw [if_neg hlen, hc]
      exact ⟨f, rfl⟩
  · simp only [stepFn]
    unfold playDelayedFrames
    rw [if_neg (by omega)]

/-- Witness for C10 at a concrete state: after reconfiguring the delay to 1 s
while only 5 frames are buffered (below the new `delaySteps = 10`), the
playback tick keeps the previously resolved frame on display and the buffer
untouched. -/
theorem c10_no_revert_after_resolve_witness :
    (stepFn ⟨1, 5, mkFrames 5, some "prev"⟩ Step.queryStep).frameBuffer = mkFrames 5 ∧
    (∃ g, (stepFn ⟨1, 5, mkFrames 5, some "prev"⟩ Step.queryStep).currentDelayedFrame
        = some g) ∧
    (stepFn ⟨1, 5, mkFrames 5, some "prev"⟩ Step.queryStep).currentDelayedFrame
      = some "prev" :=
  ⟨c10_no_revert_after_resolve.1 ⟨1, 5, mkFrames 5, some "prev"⟩,
   c10_no_revert_after_resolve.2.1 ⟨1, 5, mkFrames 5, some "prev"⟩ "prev"
     (by decide) rfl,
   c10_no_revert_after_resolve.2.2 ⟨1, 5, mkFrames 5, some "prev"⟩ (by decide)⟩

theorem findPriorityVariant_none_all (support : String → Bool)
    (h : ∀ s, support s = false) (variants : List Variant) :
    ∀ conts : List String, findPriorityVariant support variants conts = none := by
  intro conts
  induction conts with
  | nil => rfl
  | cons c cs ih =>
      cases hf : variants.find? (fun v => v.container == c) with
      | none => simp [findPriorityVariant, hf, ih]
      | some v => simp [findPriorityVariant, hf, h, ih]

theorem findAnySupported_none_all (support : String → Bool)
    (h : ∀ s, support s = false) (variants : List Variant) :
    findAnySupported support variants = none := by
  unfold findAnySupported
  exact List.find?_eq_none.mpr (fun v _ => by simp [h])

theorem autoScan_none_all (support : String → Bool) (h : ∀ s, support s = false) :
    ∀ (names : List String) (sel : String × String), autoScan support names sel = sel := by
  intro names
  induction names with
  | nil => intro sel; rfl
  | cons c cs ih =>
      intro sel
      simp only [autoScan, findPriorityVariant_none_all support h,
        findAnySupported_none_all support h]
      split <;> simp [ih]

theorem explicitScanOthers_none_all (support : String → Bool)
    (h : ∀ s, support s = false) (codec container : String) :
    ∀ names : List String, explicitScanOthers support codec container names = none := by
  intro names
  induction names with
  | nil => rfl
  | cons c cs ih =>
      by_cases hc : (c == codec) = true
      · simp [explicitScanOthers, hc, ih]
      · cases hf : (codecMapList c).find? (fun v => v.container == container) with
        | none => simp [explicitScanOthers, hc, hf, ih]
        | some v => simp [explicitScanOthers, hc, hf, h, ih]

theorem explicitFallback_none_all (support : String → Bool)
    (h : ∀ s, support s = false) (codec container : String) (variants : List Variant) :
    explicitFallback support codec container variants = (codec, container) := by
  unfold explicitFallback
  have hfind : variants.find? (fun v => support v.type) = none :=
    List.find?_eq_none.mpr (fun v _ => by simp [h])
  have hstep : (if (container == "auto") = true then (none : Option String)
      else explicitScanOthers support codec container codecPriority) = none := by
    split
    · rfl
    · exact explicitScanOthers_none_all support h codec container codecPriority
  simp only [hstep, hfind]

theorem explicitResolve_none_all (support : String → Bool)
    (h : ∀ s, support s = false) (codec container : String) :
    explicitResolve support codec container = (codec, container) := by
  unfold explicitResolve
  cases hm : codecMapGet codec with
  | none => rfl
  | some variants =>
      cases hf : variants.find? (fun v => v.container == container) with
      | none => simp [hf, explicitFallback_none_all support h]
      | some v => simp [hf, h, explicitFallback_none_all support h]

theorem finalFallback_none_all (support : String → Bool)
    (h : ∀ s, support s = false) (sel : String × String) :
    finalFallback support sel = sel := by
  unfold finalFallback
  have hfind : fallbackTypes.find? (fun fb => support fb.type) = none :=
    List.find?_eq_none.mpr (fun fb _ => by simp [h])
  simp only [hfind]
  split <;> rfl

/-- Claim C3 counterexample: with a support test under which no candidate
table entry and no last-resort fallback entry is supported, the claim says
`resolveFormat` fails with a `NoSupportedFormat` condition rather than
returning a format.  The code has no failure path at all: for the explicit
request (h264, mkv) it returns the requested pair unchanged as a resolved
format, and for (auto, auto) it returns the `'auto'` markers themselves,
labelled "AUTO (AUTO)". -/
theorem c3_no_failure_counterexample :
    getResolvedFormat supportNone "h264" "mkv" = ⟨"h264", "mkv", "H.264 (MKV)"⟩ ∧
    getResolvedFormat supportNone "auto" "auto" = ⟨"auto", "auto", "AUTO (AUTO)"⟩ := by
  exact ⟨by decide, by decide⟩

/-- Claim C3 (amended): `getResolvedFormat` never fails; when no candidate and
no fallback signature is supported it returns its two preference arguments
unchanged as the resolved pair (for any codec and container strings,
including the `'auto'` markers), with the display label composed from them.
There is no `NoSupportedFormat` condition in the code. -/
theorem c3_no_failure_amended (support : String → Bool) (codec container : String)
    (h : ∀ s, support s = false) :
    getResolvedFormat support codec container
      = ⟨codec, container, codecDisplayName codec ++ " (" ++ toUpperChars container ++ ")"⟩ := by
  have h1 : autoScan support codecPriority (codec, container) = (codec, container) :=
    autoScan_none_all support h _ _
  have h2 : explicitResolve support codec container = (codec, container) :=
    explicitResolve_none_all support h codec container
  have h3 : ∀ sel, finalFallback support sel = sel := finalFallback_none_all support h
  simp only [getResolvedFormat, h1, h2, h3]
  split <;> rfl

/-- Witness for the amended C3 at a concrete unsupported explicit request. -/
theorem c3_no_failure_amended_witness :
    getResolvedFormat supportNone "vp9" "mp4" = ⟨"vp9", "mp4", "VP9 (MP4)"⟩ :=
  (c3_no_failure_amended supportNone "vp9" "mp4" (fun _ => rfl)).trans (by decide)

theorem explicitScanOthers_split (support : String → Bool) (codec container : String)
    (cStar : String) (v : Variant) (l2 : List String)
    (hne : (cStar == codec) = false)
    (hfind : (codecMapList cStar).find? (fun x => x.container == container) = some v)
    (hsup : support v.type = true) :
    ∀ l1 : List String,
      (∀ c' ∈ l1, ((c' == codec)
        || ((codecMapList c').find? (fun x => x.container == container)).all
            (fun w => !support w.type)) = true) →
      explicitScanOthers support codec container (l1 ++ cStar :: l2) = some cStar := by
  intro l1
  induction l1 with
  | nil =>
      intro _
      simp only [List.nil_append, explicitScanOthers, hne, hfind, hsup]
      simp
  | cons c' l1 ih =>
      intro hmiss
      have hm := hmiss c' (List.mem_cons_self c' l1)
      have hrest : ∀ c'' ∈ l1, ((c'' == codec)
          || ((codecMapList c'').find? (fun x => x.container == container)).all
              (fun w => !support w.type)) = true :=
        fun c'' hc'' => hmiss c'' (List.mem_cons_of_mem c' hc'')
      by_cases hc : (c' == codec) = true
      · simp only [List.cons_append, explicitScanOthers, hc, if_true]
        exact ih hrest
      · have hc' : (c' == codec) = false := by
          cases hcc : (c' == codec) with
          | true => exact absurd hcc hc
          | false => rfl
        rw [hc', Bool.false_or] at hm
        cases hf : (codecMapList c').find? (fun x => x.container == container) with
        | none =>
            simp only [List.cons_append, explicitScanOthers, hc', hf]
            simp only [Bool.false_eq_true, if_false]
            exact ih hrest
        | some w =>
            rw [hf, Option.all_some] at hm
            have hw : support w.type = false := by
              cases hww : support w.type with
              | true => rw [hww] at hm; simp at hm
              | false => rfl
            simp only [List.cons_append, explicitScanOthers, hc', hf, hw]
            simp only [Bool.false_eq_true, if_false]
            exact ih hrest

/-- Claim C4 (amended, general form): when both preferences are explicit, the
requested codec is in the table, and the exact variant test fails, the code
scans the other codecs in priority order `av1 > hevc > h264 > vp9`, testing
for each only the first candidate-table variant whose container equals the
requested container, and selects the first codec whose tested variant is
supported, keeping the requested container.  The hypotheses split
`codecPriority` as `l1 ++ cStar :: l2`: each earlier codec is either the
requested one (skipped) or its tested variant for the requested container is
unsupported (or absent), and `cStar`'s tested variant is supported. -/
theorem c4_explicit_container_scan (support : String → Bool) (codec container : String)
    (variants : List Variant) (l1 l2 : List String) (cStar : String) (v : Variant)
    (hb : (codec == "auto" || container == "auto") = false)
    (hmap : codecMapGet codec = some variants)
    (hexact : (variants.find? (fun x => x.container == container)).all
      (fun w => !support w.type) = true)
    (hsplit : codecPriority = l1 ++ cStar :: l2)
    (hmiss : ∀ c' ∈ l1, ((c' == codec)
      || ((codecMapList c').find? (fun x => x.container == container)).all
          (fun w => !support w.type)) = true)
    (hne : (cStar == codec) = false)
    (hfind : (codecMapList cStar).find? (fun x => x.container == container) = some v)
    (hsup : support v.type = true)
    (hcs : (cStar == "auto") = false) :
    getResolvedFormat support codec container
      = ⟨cStar, container, codecDisplayName cStar ++ " (" ++ toUpperChars container ++ ")"⟩ := by
  have hcont : (container == "auto") = false := by
    cases hca : (container == "auto") with
    | true => rw [hca, Bool.or_true] at hb; exact absurd hb (by simp)
    | false => rfl
  have hscan : explicitScanOthers support codec container codecPriority = some cStar := by
    rw [hsplit]
    exact explicitScanOthers_split support codec container cStar v l2 hne hfind hsup l1 hmiss
  have hfb : explicitFallback support codec container variants = (cStar, container) := by
    unfold explicitFallback
    simp only [hcont, Bool.false_eq_true, if_false, hscan]
  have hres : explicitResolve support codec container = (cStar, container) := by
    cases hf : variants.find? (fun x => x.container == container) with
    | none =>
        simp only [explicitResolve, hmap, hf]
        exact hfb
    | some w =>
        rw [hf, Option.all_some] at hexact
        have hw : support w.type = false := by
          cases hww : support w.type with
          | true => rw [hww] at hexact; simp at hexact
          | false => rfl
        simp only [explicitResolve, hmap, hf, hw, Bool.false_eq_true, if_false]
        exact hfb
  have hff : finalFallback support (cStar, container) = (cStar, container) := by
    unfold finalFallback
    simp [hcs]
  simp only [getResolvedFormat, hb, Bool.false_eq_true, if_false, hres, hff]

/-- Witness for the amended C4 at the claim's own scenario: request
(h264, mkv) with only the mp4 variant of h264 and the mkv variant of vp9
supported; av1 and hevc have no supported mkv variant, so the scan resolves
to (vp9, mkv). -/
theorem c4_explicit_container_scan_witness :
    getResolvedFormat supportC4 "h264" "mkv" = ⟨"vp9", "mkv", "VP9 (MKV)"⟩ :=
  (c4_explicit_container_scan supportC4 "h264" "mkv" h264Variants
    ["av1", "hevc", "h264"] [] "vp9" ⟨"video/x-matroska; codecs=\"vp9\"", "mkv"⟩
    (by decide) (by decide) (by decide) (by decide) (by decide) (by decide)
    (by decide) (by decide) (by decide)).trans (by decide)

/-- Claim C4 counterexample: request (vp9, webm) when the only supported
signature is `video/webm; codecs="av01"`.  The exact (vp9, webm) variant is
unsupported, and av1 — the first other codec in priority order — does have a
supported variant in the requested webm container, so the claim requires the
result (av1, webm).  The code tests only av1's first webm variant
(`av01.0.05M.08`), misses the supported one, finds nothing anywhere, and
returns the requested pair (vp9, webm) unchanged. -/
theorem c4_container_scan_counterexample :
    getResolvedFormat supportC4Cex "vp9" "webm" = ⟨"vp9", "webm", "VP9 (WEBM)"⟩ ∧
    (codecMapList "av1").any (fun w => w.container == "webm" && supportC4Cex w.type) = true ∧
    getResolvedFormat supportC4Cex "vp9" "webm" ≠ ⟨"av1", "webm", "AV1 (WEBM)"⟩ :=
  ⟨by decide, by decide, by decide⟩

theorem findPriorityVariant_none_of_misses (support : String → Bool) (variants : List Variant) :
    ∀ conts : List String,
      (∀ k' ∈ conts, (variants.find? (fun x => x.container == k')).all
          (fun w => !support w.type) = true) →
      findPriorityVariant support variants conts = none := by
  intro conts
  induction conts with
  | nil => intro _; rfl
  | cons k' cs ih =>
      intro hmiss
      have hm := hmiss k' (List.mem_cons_self k' cs)
      have hrest : ∀ k'' ∈ cs, (variants.find? (fun x => x.container == k'')).all
          (fun w => !support w.type) = true :=
        fun k'' hk'' => hmiss k'' (List.mem_cons_of_mem k' hk'')
      cases hf : variants.find? (fun x => x.container == k') with
      | none =>
          simp only [findPriorityVariant, hf]
          exact ih hrest
      | some w =>
          rw [hf, Option.all_some] at hm
          have hw : support w.type = false := by
            cases hww : support w.type with
            | true => rw [hww] at hm; simp at hm
            | false => rfl
          simp only [findPriorityVariant, hf, hw, Bool.false_eq_true, if_false]
          exact ih hrest

theorem findPriorityVariant_none_of_all (support : String → Bool) (variants : List Variant)
    (h : variants.all (fun w => !support w.type) = true) (conts : List String) :
    findPriorityVariant support variants conts = none := by
  apply findPriorityVariant_none_of_misses
  intro k' _
  cases hf : variants.find? (fun x => x.container == k') with
  | none => rfl
  | some w =>
      rw [Option.all_some]
      exact List.all_eq_true.mp h w (List.mem_of_find?_eq_some hf)

theorem findAnySupported_none_of_all (support : String → Bool) (variants : List Variant)
    (h : variants.all (fun w => !support w.type) = true) :
    findAnySupported support variants = none := by
  unfold findAnySupported
  refine List.find?_eq_none.mpr (fun w hw => ?_)
  have := List.all_eq_true.mp h w hw
  simp only [Bool.not_eq_true'] at this
  simp [this]

theorem findPriorityVariant_split (support : String → Bool) (variants : List Variant)
    (k : String) (v : Variant) (m2 : List String)
    (hfind : variants.find? (fun x => x.container == k) = some v)
    (hsup : support v.type = true) :
    ∀ m1 : List String,
      (∀ k' ∈ m1, (variants.find? (fun x => x.container == k')).all
          (fun w => !support w.type) = true) →
      findPriorityVariant support variants (m1 ++ k :: m2) = some k := by
  intro m1
  induction m1 with
  | nil =>
      intro _
      simp only [List.nil_append, findPriorityVariant, hfind, hsup, if_true]
  | cons k' m1 ih =>
      intro hmiss
      have hm := hmiss k' (List.mem_cons_self k' m1)
      have hrest : ∀ k'' ∈ m1, (variants.find? (fun x => x.container == k'')).all
          (fun w => !support w.type) = true :=
        fun k'' hk'' => hmiss k'' (List.mem_cons_of_mem k' hk'')
      cases hf : variants.find? (fun x => x.container == k') with
      | none =>
          simp only [List.cons_append, findPriorityVariant, hf]
          exact ih hrest
      | some w =>
          rw [hf, Option.all_some] at hm
          have hw : support w.type = false := by
            cases hww : support w.type with
            | true => rw [hww] at hm; simp at hm
            | false => rfl
          simp only [List.cons_append, findPriorityVariant, hf, hw, Bool.false_eq_true, if_false]
          exact ih hrest

theorem autoScan_skip (support : String → Bool) (rest : List String) :
    ∀ l1 : List String,
      (∀ c' ∈ l1, (codecMapList c').all (fun w => !support w.type) = true) →
      autoScan support (l1 ++ rest) ("auto", "auto") = autoScan support rest ("auto", "auto") := by
  intro l1
  induction l1 with
  | nil => intro _; rfl
  | cons c' l1 ih =>
      intro h
      have hall := h c' (List.mem_cons_self c' l1)
      have hrest : ∀ c'' ∈ l1, (codecMapList c'').all (fun w => !support w.type) = true :=
        fun c'' hc'' => h c'' (List.mem_cons_of_mem c' hc'')
      simp only [List.cons_append, autoScan,
        findPriorityVariant_none_of_all support _ hall containerPriority,
        findAnySupported_none_of_all support _ hall, beq_self_eq_true, if_true]
      exact ih hrest

/-- Claim C6 (amended, general form): with codec = auto and container = auto,
resolution iterates codecs in the order `av1 > hevc > h264 > vp9`; codecs all
of whose variants are unsupported are passed over; at the first codec with a
supported test, the containers are iterated in the order `mkv > mp4 > webm`,
testing for each container only the first candidate-table variant with that
container, and the first supported test fixes codec and container (part 1);
if none of the per-container tested variants is supported but some variant of
that codec is, the first supported variant in the candidate list's own order
is taken instead — its container need not respect the container priority
(part 2).  The display label is `"<CODEC> (<CONTAINER>)"`. -/
theorem c6_auto_resolution :
    (∀ (support : String → Bool) (l1 l2 : List String) (cStar : String)
        (m1 m2 : List String) (k : String) (v : Variant),
      codecPriority = l1 ++ cStar :: l2 →
      (∀ c' ∈ l1, (codecMapList c').all (fun w => !support w.type) = true) →
      (cStar == "auto") = false →
      containerPriority = m1 ++ k :: m2 →
      (∀ k' ∈ m1, ((codecMapList cStar).find? (fun x => x.container == k')).all
          (fun w => !support w.type) = true) →
      (codecMapList cStar).find? (fun x => x.container == k) = some v →
      support v.type = true →
      getResolvedFormat support "auto" "auto"
        = ⟨cStar, k, codecDisplayName cStar ++ " (" ++ toUpperChars k ++ ")"⟩) ∧
    (∀ (support : String → Bool) (l1 l2 : List String) (cStar : String) (v : Variant),
      codecPriority = l1 ++ cStar :: l2 →
      (∀ c' ∈ l1, (codecMapList c').all (fun w => !support w.type) = true) →
      (cStar == "auto") = false →
      (∀ k' ∈ containerPriority, ((codecMapList cStar).find? (fun x => x.container == k')).all
          (fun w => !support w.type) = true) →
      (codecMapList cStar).find? (fun w => support w.type) = some v →
      getResolvedFormat support "auto" "auto"
        = ⟨cStar, v.container, codecDisplayName cStar ++ " (" ++ toUpperChars v.container ++ ")"⟩) := by
  constructor
  · intro support l1 l2 cStar m1 m2 k v hsplitC hl1 hcs hsplitK hm1 hfind hsup
    have hp1 : findPriorityVariant support (codecMapList cStar) containerPriority = some k := by
      rw [hsplitK]
      exact findPriorityVariant_split support (codecMapList cStar) k v m2 hfind hsup m1 hm1
    have hauto : autoScan support codecPriority ("auto", "auto") = (cStar, k) := by
      rw [hsplitC, autoScan_skip support (cStar :: l2) l1 hl1]
      simp only [autoScan, hp1]
    have hff : finalFallback support (cStar, k) = (cStar, k) := by
      unfold finalFallback
      simp [hcs]
    simp only [getResolvedFormat, beq_self_eq_true, Bool.or_self, if_true, hauto, hff]
  · intro support l1 l2 cStar v hsplitC hl1 hcs hmiss hfind
    have hp1 : findPriorityVariant support (codecMapList cStar) containerPriority = none :=
      findPriorityVariant_none_of_misses support (codecMapList cStar) containerPriority hmiss
    have hp2 : findAnySupported support (codecMapList cStar) = some v := hfind
    have hauto : autoScan support codecPriority ("auto", "auto") = (cStar, v.container) := by
      rw [hsplitC, autoScan_skip support (cStar :: l2) l1 hl1]
      simp only [autoScan, hp1, hp2, beq_self_eq_true, if_true]
    have hff : finalFallback support (cStar, v.container) = (cStar, v.container) := by
      unfold finalFallback
      simp [hcs]
    simp only [getResolvedFormat, beq_self_eq_true, Bool.or_self, if_true, hauto, hff]

/-- Witness for the amended C6: the claim's own scenario (only
`video/webm; codecs="vp9"` supported resolves to (vp9, webm) labelled
"VP9 (WEBM)", through part 1), and a part-2 instance (only
`video/webm; codecs="av01"` supported resolves to (av1, webm) through the
any-variant fallback). -/
theorem c6_auto_resolution_witness :
    getResolvedFormat supportC6 "auto" "auto" = ⟨"vp9", "webm", "VP9 (WEBM)"⟩ ∧
    getResolvedFormat supportC6Any "auto" "auto" = ⟨"av1", "webm", "AV1 (WEBM)"⟩ :=
  ⟨(c6_auto_resolution.1 supportC6 ["av1", "hevc", "h264"] [] "vp9" ["mkv", "mp4"] [] "webm"
      ⟨"video/webm; codecs=\"vp9\"", "webm"⟩ (by decide) (by decide) (by decide) (by decide)
      (by decide) (by decide) (by decide)).trans (by decide),
   (c6_auto_resolution.2 supportC6Any [] ["hevc", "h264", "vp9"] "av1"
      ⟨"video/webm; codecs=\"av01\"", "webm"⟩ (by decide) (by decide) (by decide) (by decide)
      (by decide)).trans (by decide)⟩

/-- Claim C6 counterexample: with only `video/webm; codecs="av01"` and
`video/mp4; codecs="av01"` supported (both av1 variants), the claimed
container order mkv > mp4 > webm requires the result (av1, mp4), since av1
has a supported variant in the mp4 container; the code's per-container loop
tests only the first-listed variant of each container (all unsupported here)
and then falls back to the first supported variant in candidate-list order,
which is the webm one, returning (av1, webm). -/
theorem c6_counterexample :
    getResolvedFormat supportC6Cex "auto" "auto" = ⟨"av1", "webm", "AV1 (WEBM)"⟩ ∧
    (codecMapList "av1").any (fun w => w.container == "mp4" && supportC6Cex w.type) = true ∧
    getResolvedFormat supportC6Cex "auto" "auto" ≠ ⟨"av1", "mp4", "AV1 (MP4)"⟩ :=
  ⟨by decide, by decide, by decide⟩

/-- Claim C8 counterexample: under a support test for which only the MKV
variant `video/x-matroska; codecs="vp9"` of vp9 is supported, vp9 does have a
supported candidate-table variant, yet `getSupportedCodecs` reports every
codec — including vp9 — as unsupported, because its per-codec test lists omit
the mkv signatures. -/
theorem c8_supported_codecs_counterexample :
    (getSupportedCodecs supportC8Cex).map (fun c => (c.value, c.supported))
      = [("av1", false), ("hevc", false), ("h264", false), ("vp9", false)] ∧
    (codecMapList "vp9").any (fun w => supportC8Cex w.type) = true :=
  ⟨by decide, by decide⟩

/-- Claim C8 (amended): `getSupportedCodecs` lists the four known codecs in
order av1, hevc, h264, vp9 and reports each as supported exactly when at
least one signature of that codec's fixed tested list (`testedSigs`) is
supported; the tested lists are the mp4/webm signatures (plus, for av1, an
extra mp4 signature not in the candidate table) and omit all mkv signatures.
The operation is a pure function of the support test alone, so it neither
mutates nor depends on negotiation state. -/
theorem c8_supported_codecs (support : String → Bool) :
    (getSupportedCodecs support).map (fun c => c.value) = codecPriority ∧
    ∀ c ∈ getSupportedCodecs support,
      (c.supported = true ↔ ∃ s ∈ testedSigs c.value, support s = true) := by
  constructor
  · simp [getSupportedCodecs, codecPriority]
  · intro c hc
    simp only [getSupportedCodecs, List.mem_cons, List.not_mem_nil, or_false] at hc
    rcases hc with h | h | h | h <;> subst h <;>
      simp [testedSigs, av1TestTypes, List.any_eq_true]

/-- Witness for the amended C8: with only `video/webm; codecs="vp9"`
supported, the listing keeps the fixed codec order and the vp9 entry's flag
is characterised by its tested-signature list. -/
theorem c8_supported_codecs_witness :
    (getSupportedCodecs supportC8).map (fun c => c.value) = codecPriority ∧
    ((⟨"vp9", "VP9", true⟩ : CodecInfo).supported = true ↔
      ∃ s ∈ testedSigs (⟨"vp9", "VP9", true⟩ : CodecInfo).value, supportC8 s = true) :=
  ⟨(c8_supported_codecs supportC8).1,
   (c8_supported_codecs supportC8).2 ⟨"vp9", "VP9", true⟩ (by decide)⟩
